import Mathlib

/-!
Verification development for the container orchestration backend
(`src/backend/src/services/podman.ts` and `src/backend/src/services/file.ts`).

The TypeScript services are shallowly embedded as pure Lean functions.
External command results (the container runtime, `lsof`, `stat`, remote
reads) are supplied by explicit environment structures; every operation
returns its result together with the updated in-memory port-reservation
state and a trace of the external effects it issued, so that ordering and
frame properties can be stated.  Modelling conventions:

* JavaScript `Set<number>` state (`usedPorts`) is a duplicate-free
  `List Nat` with insertion-ordered `addPort` / `deletePort`.
* Numeric container labels and host-port bindings are modelled after
  `parseInt` has been applied (non-numeric labels, which would produce
  `NaN`, are outside the modelled state space; every label this system
  writes is numeric).
* Thrown `Error` objects are `Except String` values carrying the message
  string; messages of failing external commands are modelled by the fixed
  placeholder "command failed" since the code only forwards them.
-/

namespace December

/-- Model of JavaScript `parseInt` restricted to the base-10, non-negative
inputs that occur here: parse the longest leading digit run, failing when
there is none (`NaN`). -/
def parseIntJS (s : String) : Option Nat :=
  let ds := s.data.takeWhile Char.isDigit
  if ds.isEmpty then none
  else some (ds.foldl (fun n c => n * 10 + (c.toNat - 48)) 0)

/-- Whitespace for the purposes of `String.prototype.trim` (the
characters that occur in the modelled command outputs). -/
def isWS (c : Char) : Bool :=
  c = ' ' || c = '\n' || c = '\t' || c = '\r'

/-- Model of JavaScript `trim()`: drop whitespace from both ends.
(Implemented on the character list so that it evaluates by reduction.) -/
def trimJS (s : String) : String :=
  String.mk (((s.data.dropWhile isWS).reverse.dropWhile isWS).reverse)

/-- Worker for `split`: scan the characters, emitting a part at each
occurrence of the separator.  The fuel is the character count; every
step consumes at least one character, so the fuel never runs out for
the initial call. -/
def splitOnAuxJS (sep : List Char) : Nat → List Char → List Char → List (List Char)
  | _, [], acc => [acc.reverse]
  | 0, s, acc => [acc.reverse ++ s]
  | fuel + 1, c :: rest, acc =>
    if sep.isPrefixOf (c :: rest) then
      acc.reverse :: splitOnAuxJS sep fuel ((c :: rest).drop sep.length) []
    else
      splitOnAuxJS sep fuel rest (c :: acc)

/-- Model of JavaScript `s.split(sep)` for a non-empty plain-string
separator (every separator used by the services is non-empty). -/
def splitOnJS (s sep : String) : List String :=
  if sep.data.isEmpty then [s]
  else (splitOnAuxJS sep.data s.data.length s.data []).map String.mk

/-- Join parts back with a separator (used to model replacing only the
first separator occurrence). -/
def joinWith (sep : String) : List String → String
  | [] => ""
  | [x] => x
  | x :: rest => x ++ sep ++ joinWith sep rest

/-- Model of JavaScript `String.prototype.includes`: substring test. -/
def includesJS (s pat : String) : Bool :=
  pat == "" || (splitOnJS s pat).length != 1

/-- Results of the external commands the port allocator and lifecycle
manager issue.  `none` for an output means the command exited non-zero. -/
structure PortEnv where
  psOutput : Option String
  lsofOutput : Nat → Option String
  startFails : Bool
  stopFails : Bool
  rmFails : Bool
  rmiFails : Bool

/-- External effects issued by the podman service, in order. -/
inductive Eff where
  | psQuery
  | probe (port : Nat)
  | reserve (port : Nat)
  | release (port : Nat)
  | inspect (cid : String)
  | startCmd (cid : String)
  | stopCmd (cid : String)
  | rmCmd (cid : String)
  | rmiCmd (image : String)
  deriving DecidableEq

/-- The module-level `usedPorts` set, as an insertion-ordered
duplicate-free list. -/
abbrev UsedPorts := List Nat

/-- `usedPorts.add(p)`. -/
def addPort (st : UsedPorts) (p : Nat) : UsedPorts :=
  if p ∈ st then st else st ++ [p]

/-- `usedPorts.delete(p)` (the body of `releasePort`). -/
def deletePort (st : UsedPorts) (p : Nat) : UsedPorts :=
  st.filter (fun q => q ≠ p)

/-- Outcome of a podman-service operation: the returned (or thrown) value,
the updated `usedPorts` state, and the trace of external effects. -/
structure PortOut (α : Type) where
  res : Except String α
  used : UsedPorts
  effs : List Eff

/-- `getAllAssignedPorts`: parse the `assignedPort` labels reported by
`podman ps -a`; a failing command yields `[]`. -/
def getAllAssignedPorts (env : PortEnv) : List Nat :=
  match env.psOutput with
  | none => []
  | some out =>
    ((splitOnJS (trimJS out) "\n").filter
      (fun p => p != "" && p != "<no value>")).filterMap parseIntJS

/-- `isPortAvailable`: empty `lsof -i :port` output, or a failing `lsof`
command, count as available. -/
def isPortAvailable (env : PortEnv) (port : Nat) : Bool :=
  match env.lsofOutput port with
  | none => true
  | some out => trimJS out == ""

/-- The scan loop of `findAvailablePort`: starting at `port` with `fuel`
candidates left, skip candidates in `allUsedPorts`, probe the others, and
return the first probe success together with the probes issued. -/
def findAvailablePortScan (env : PortEnv) (allUsedPorts : List Nat) :
    Nat → Nat → Option Nat × List Eff
  | _, 0 => (none, [])
  | port, fuel + 1 =>
    if port ∈ allUsedPorts then
      findAvailablePortScan env allUsedPorts (port + 1) fuel
    else if isPortAvailable env port then
      (some port, [Eff.probe port])
    else
      let r := findAvailablePortScan env allUsedPorts (port + 1) fuel
      (r.1, Eff.probe port :: r.2)

/-- `findAvailablePort(startPort)`: union the runtime-labelled ports with
the local reservation set, scan 1000 candidates from `startPort`, reserve
and return the first accepted one, and otherwise throw the exhaustion
error. -/
def findAvailablePort (env : PortEnv) (used : UsedPorts) (startPort : Nat) :
    PortOut Nat :=
  let assignedPorts := getAllAssignedPorts env
  let allUsedPorts := used ++ assignedPorts
  match findAvailablePortScan env allUsedPorts startPort 1000 with
  | (some p, effs) => ⟨Except.ok p, addPort used p, Eff.psQuery :: effs ++ [Eff.reserve p]⟩
  | (none, effs) => ⟨Except.error "No available ports found", used, Eff.psQuery :: effs⟩

/-- The fields of a `podman inspect` result that the service reads,
normalized: the running flag, the parsed `HostPort` of the first
`3000/tcp` binding when present, the parsed `assignedPort` label when
present and non-empty, and `Config.Image`. -/
structure InspectInfo where
  running : Bool
  hostPortBinding : Option Nat
  assignedPortLabel : Option Nat
  image : String

/-- `getPortFromContainer`: prefer the live `3000/tcp` host-port binding,
fall back to the `assignedPort` label, and record the port found in
`usedPorts`; with neither, throw. -/
def getPortFromContainer (info : InspectInfo) (used : UsedPorts) : PortOut Nat :=
  match info.hostPortBinding with
  | some port => ⟨Except.ok port, addPort used port, [Eff.reserve port]⟩
  | none =>
    match info.assignedPortLabel with
    | some port => ⟨Except.ok port, addPort used port, [Eff.reserve port]⟩
    | none => ⟨Except.error "Could not determine container port", used, []⟩

/-- The conflict message thrown by `startContainer` when the labelled port
is gone and a different port was freshly allocated. -/
def conflictMsg (pl : Nat) : String :=
  "Container port " ++ toString pl ++ " is no longer available. Please recreate the container."

/-- `startContainer`: inspect first; if running, a read via
`getPortFromContainer`; if stopped, reclaim the labelled port when it is
still free, otherwise allocate a fresh port and throw the conflict error
when it differs from the label; only then run `podman start`.  All thrown
errors are re-wrapped with the operation prefix. -/
def startContainer (env : PortEnv) (cid : String) (info : InspectInfo)
    (used : UsedPorts) : PortOut Nat :=
  if info.running then
    let r := getPortFromContainer info used
    match r.res with
    | Except.ok port => ⟨Except.ok port, r.used, Eff.inspect cid :: r.effs⟩
    | Except.error e =>
      ⟨Except.error ("Failed to start container: " ++ e), r.used, Eff.inspect cid :: r.effs⟩
  else
    match info.assignedPortLabel with
    | some pl =>
      if isPortAvailable env pl then
        if env.startFails then
          ⟨Except.error "Failed to start container: command failed", addPort used pl,
            [Eff.inspect cid, Eff.probe pl, Eff.reserve pl, Eff.startCmd cid]⟩
        else
          ⟨Except.ok pl, addPort used pl,
            [Eff.inspect cid, Eff.probe pl, Eff.reserve pl, Eff.startCmd cid]⟩
      else
        let r := findAvailablePort env used 8000
        match r.res with
        | Except.ok q =>
          if pl ≠ q then
            ⟨Except.error ("Failed to start container: " ++ conflictMsg pl), r.used,
              Eff.inspect cid :: Eff.probe pl :: r.effs⟩
          else if env.startFails then
            ⟨Except.error "Failed to start container: command failed", r.used,
              Eff.inspect cid :: Eff.probe pl :: r.effs ++ [Eff.startCmd cid]⟩
          else
            ⟨Except.ok q, r.used,
              Eff.inspect cid :: Eff.probe pl :: r.effs ++ [Eff.startCmd cid]⟩
        | Except.error e =>
          ⟨Except.error ("Failed to start container: " ++ e), r.used,
            Eff.inspect cid :: Eff.probe pl :: r.effs⟩
    | none =>
      let r := findAvailablePort env used 8000
      match r.res with
      | Except.ok q =>
        if env.startFails then
          ⟨Except.error "Failed to start container: command failed", r.used,
            Eff.inspect cid :: r.effs ++ [Eff.startCmd cid]⟩
        else
          ⟨Except.ok q, r.used, Eff.inspect cid :: r.effs ++ [Eff.startCmd cid]⟩
      | Except.error e =>
        ⟨Except.error ("Failed to start container: " ++ e), r.used, Eff.inspect cid :: r.effs⟩

/-- `deleteContainer`: resolve and release the container's port, stop it
first when running, `podman rm -f` it, and best-effort remove its image
when the image name contains the `dec-nextjs-` convention (that removal's
failure is logged, never thrown). -/
def deleteContainer (env : PortEnv) (cid : String) (info : InspectInfo)
    (used : UsedPorts) : PortOut Unit :=
  let r := getPortFromContainer info used
  match r.res with
  | Except.error e =>
    ⟨Except.error ("Failed to delete container: " ++ e), r.used, Eff.inspect cid :: r.effs⟩
  | Except.ok port =>
    let used1 := deletePort r.used port
    if info.running && env.stopFails then
      ⟨Except.error "Failed to delete container: command failed", used1,
        Eff.inspect cid :: r.effs ++ [Eff.release port, Eff.stopCmd cid]⟩
    else
      let stopEffs := if info.running then [Eff.stopCmd cid] else []
      if env.rmFails then
        ⟨Except.error "Failed to delete container: command failed", used1,
          Eff.inspect cid :: r.effs ++ [Eff.release port] ++ stopEffs ++ [Eff.rmCmd cid]⟩
      else if info.image != "" && includesJS info.image "dec-nextjs-" then
        ⟨Except.ok (), used1,
          Eff.inspect cid :: r.effs ++ [Eff.release port] ++ stopEffs
            ++ [Eff.rmCmd cid, Eff.rmiCmd info.image]⟩
      else
        ⟨Except.ok (), used1,
          Eff.inspect cid :: r.effs ++ [Eff.release port] ++ stopEffs ++ [Eff.rmCmd cid]⟩

/-!
Interleaved execution of several concurrent `findAvailablePort` calls.

The service runs on one cooperatively-scheduled event loop, so execution
of a call is atomic between `await` points.  A call suspends (a) at the
`podman ps` query inside `getAllAssignedPorts` and (b) at every
`lsof` probe inside the scan loop; the `usedPorts.add` after a successful
probe runs in the same atomic block as that probe's resumption.  Each
`CallPhase` below is a suspension point; `stepCall` is one atomic block.
-/

/-- Suspension-point state of one in-flight `findAvailablePort(startPort)`
call: still awaiting the `podman ps` snapshot, awaiting the `lsof` probe
of `port` with its pre-computed `snapshot` of used ports and the
remaining scan `fuel`, returned, or thrown (exhaustion). -/
inductive CallPhase where
  | waitingSnapshot (startPort : Nat)
  | probing (snapshot : List Nat) (port : Nat) (fuel : Nat)
  | done (port : Nat)
  | failed
  deriving DecidableEq

/-- Skip candidates that are in the snapshot, yielding the next candidate
to probe together with the fuel left after it. -/
def scanFree (snapshot : List Nat) : Nat → Nat → Option (Nat × Nat)
  | _, 0 => none
  | port, fuel + 1 =>
    if port ∈ snapshot then scanFree snapshot (port + 1) fuel
    else some (port, fuel)

/-- One atomic block of a `findAvailablePort` call, given the shared
`usedPorts` state at the moment the block runs. -/
def stepCall (env : PortEnv) (used : UsedPorts) : CallPhase → CallPhase × UsedPorts
  | CallPhase.waitingSnapshot startPort =>
    let snapshot := used ++ getAllAssignedPorts env
    match scanFree snapshot startPort 1000 with
    | some (p, fuel) => (CallPhase.probing snapshot p fuel, used)
    | none => (CallPhase.failed, used)
  | CallPhase.probing snapshot port fuel =>
    if isPortAvailable env port then (CallPhase.done port, addPort used port)
    else
      match scanFree snapshot (port + 1) fuel with
      | some (q, fuel2) => (CallPhase.probing snapshot q fuel2, used)
      | none => (CallPhase.failed, used)
  | CallPhase.done port => (CallPhase.done port, used)
  | CallPhase.failed => (CallPhase.failed, used)

/-- Shared state of N concurrent `findAvailablePort` calls. -/
structure AllocSystem where
  used : UsedPorts
  calls : List CallPhase
  deriving DecidableEq

/-- Run the event loop under a schedule: each entry names the call whose
next atomic block runs. -/
def runSchedule (env : PortEnv) : AllocSystem → List Nat → AllocSystem
  | s, [] => s
  | s, i :: rest =>
    match s.calls[i]? with
    | none => runSchedule env s rest
    | some c =>
      let r := stepCall env s.used c
      runSchedule env ⟨r.2, s.calls.set i r.1⟩ rest

/-!
Embedding of the remote-filesystem service (`file.ts`).  Remote command
results are supplied by a `FileEnv`; the JavaScript `Map` objects are
modelled as insertion-ordered association lists, with `Map.set`
overwriting in place and appending new keys at the end, exactly as the
JavaScript `Map` iteration order behaves.  The mutable `FileItem` object
graph (children arrays holding references into the map) is modelled by
storing child *paths* in the map entries and materializing the recursive
tree at the end: every pushed child is a map key, and child paths are
strictly longer than their parent's, so an entry-count fuel bound
suffices for the materialization to reproduce the object graph. -/

/-- Results of the remote commands the file service issues per path:
`statOutput p` is the stdout of `stat -c "%F" p` (`none` when the exec
fails), `readOutput p` the result of the `cat | head -c 10000000` read
(`Except.error` carries the thrown error's message). -/
structure FileEnv where
  statOutput : String → Option String
  readOutput : String → Except String String

/-- Association-list `Map.set`: overwrite in place, append new keys. -/
def setEntry {α : Type} : List (String × α) → String → α → List (String × α)
  | [], k, v => [(k, v)]
  | (k', v') :: rest, k, v =>
    if k' = k then (k, v) :: rest else (k', v') :: setEntry rest k v

/-- Association-list `Map.get`. -/
def lookupEntry {α : Type} : List (String × α) → String → Option α
  | [], _ => none
  | (k', v) :: rest, k => if k' = k then some v else lookupEntry rest k

/-- Strip one leading byte-order mark, U+FEFF, as `readFile` does with
its anchored regex replace. -/
def dropBOM (s : String) : String :=
  match s.data with
  | c :: rest => if c = '\uFEFF' then String.mk rest else s
  | [] => s

/-- `readFile`: the remote `cat` read with its leading BOM stripped. -/
def readFile (env : FileEnv) (filePath : String) : Except String String :=
  (env.readOutput filePath).map dropBOM

/-- One entry produced inside `readFilesBatch`: a successful read's
content, or the failure placeholder built from the error message. -/
def readFileBatchEntry (env : FileEnv) (filePath : String) : String × String :=
  match readFile env filePath with
  | Except.ok content => (filePath, content)
  | Except.error e => (filePath, "Error reading file: " ++ e)

/-- The content string `readFilesBatch` records for a path. -/
def batchContentOf (env : FileEnv) (filePath : String) : String :=
  (readFileBatchEntry env filePath).2

/-- The batch loop of `readFilesBatch`: take 50 paths, read them (within a
batch the reads are awaited together, but each settles to its own
entry), record the results, recurse on the rest. -/
def readFilesBatchGo (env : FileEnv) :
    Nat → List (String × String) → List String → List (String × String)
  | _, results, [] => results
  | 0, results, _ => results
  | fuel + 1, results, filePaths =>
    let batch := filePaths.take 50
    let batchResults := batch.map (readFileBatchEntry env)
    let results2 := batchResults.foldl (fun m e => setEntry m e.1 e.2) results
    readFilesBatchGo env fuel results2 (filePaths.drop 50)

/-- `readFilesBatch`: map each file path to its content or failure
placeholder, in batches of 50. -/
def readFilesBatch (env : FileEnv) (filePaths : List String) : List (String × String) :=
  readFilesBatchGo env filePaths.length [] filePaths

/-- `getFileStat`: the path is a directory when the (trimmed) `stat`
output contains "directory"; a failing `stat` classifies it as a file. -/
def getFileStat (env : FileEnv) (filePath : String) : Bool :=
  match env.statOutput filePath with
  | none => false
  | some out => includesJS (trimJS out) "directory"

/-- File or directory, the `type` field of a tree node. -/
inductive FType where
  | file
  | directory
  deriving DecidableEq

/-- A tree-map entry: the node's name, kind, ordered child paths
(directories only) and content (content-inclusive traversal only). -/
structure RawItem where
  name : String
  type : FType
  childPaths : Option (List String)
  content : Option String
  deriving DecidableEq

/-- The association-list stand-in for the `fileTree` `Map`. -/
abbrev EntryMap := List (String × RawItem)

/-- The returned tree node shape (`FileItem` / `FileContentItem`). -/
inductive FileItem where
  | mk (name : String) (path : String) (type : FType)
       (children : Option (List FileItem)) (content : Option String)

/-- Model of JavaScript `s.replace(pat, "")` for a plain-string pattern:
remove the first occurrence of `pat`. -/
def replaceFirstJS (s pat : String) : String :=
  match splitOnJS s pat with
  | [] => s
  | [x] => x
  | x :: rest => x ++ joinWith pat rest

/-- `filePath.substring(0, filePath.lastIndexOf("/"))`: the characters
before the last slash, empty when there is none. -/
def parentPathOf (filePath : String) : String :=
  String.mk ((((filePath.data.reverse).dropWhile (fun c => c ≠ '/')).drop 1).reverse)

/-- The key the parent is looked up under: `parentPath || containerPath`. -/
def parentKeyOf (containerPath filePath : String) : String :=
  if parentPathOf filePath = "" then containerPath else parentPathOf filePath

/-- The node name: last segment of the path relative to the container
path (first occurrence of `containerPath ++ "/"` removed). -/
def fileNameOf (containerPath filePath : String) : String :=
  let relativePath := replaceFirstJS filePath (containerPath ++ "/")
  ((splitOnJS relativePath "/").getLast?).getD ""

/-- The map entry built for one traversal path (content set later). -/
def mkTreeItem (env : FileEnv) (containerPath filePath : String) : RawItem :=
  let isDir := getFileStat env filePath
  { name := fileNameOf containerPath filePath
    type := if isDir then FType.directory else FType.file
    childPaths := if isDir then some [] else none
    content := none }

/-- The synthetic root entry registered under the container path. -/
def rootRawItem : RawItem :=
  { name := "root", type := FType.directory, childPaths := some [], content := none }

/-- Append `childPath` to the children of the entry at `parentKey`, when
that entry exists and has a children slot (directories only). -/
def pushChild : EntryMap → String → String → EntryMap
  | [], _, _ => []
  | (k, it) :: rest, parentKey, childPath =>
    if k = parentKey then
      match it.childPaths with
      | some l => (k, { it with childPaths := some (l ++ [childPath]) }) :: rest
      | none => (k, it) :: rest
    else (k, it) :: pushChild rest parentKey childPath

/-- The body of `getFileTree`'s loop: classify the path, register its
node, and attach it to its parent's children. -/
def treeStep (env : FileEnv) (containerPath : String) (m : EntryMap)
    (filePath : String) : EntryMap :=
  let m1 := setEntry m filePath (mkTreeItem env containerPath filePath)
  pushChild m1 (parentKeyOf containerPath filePath) filePath

/-- The `fileTree` map after `getFileTree`'s loop over all paths. -/
def buildTreeMap (env : FileEnv) (containerPath : String) (paths : List String) : EntryMap :=
  paths.foldl (treeStep env containerPath) [(containerPath, rootRawItem)]

/-- Split the traversal output into surviving paths: non-empty lines that
are not the container path itself. -/
def parsePaths (output containerPath : String) : List String :=
  (splitOnJS (trimJS output) "\n").filter (fun p => p != "" && p != containerPath)

/-- Materialize the recursive node for a map key, resolving child paths
through the map; the fuel is bounded by the entry count. -/
def materializeItem (m : EntryMap) : Nat → String → Option FileItem
  | 0, _ => none
  | fuel + 1, p =>
    match lookupEntry m p with
    | none => none
    | some it =>
      some (FileItem.mk it.name p it.type
        (it.childPaths.map (fun cps => cps.filterMap (materializeItem m fuel)))
        it.content)

/-- `getFileTree`: parse the traversal output, build the map by the
sorted-order loop, and return the root's materialized children. -/
def getFileTree (env : FileEnv) (output containerPath : String) : List FileItem :=
  let paths := parsePaths output containerPath
  let m := buildTreeMap env containerPath paths
  match lookupEntry m containerPath with
  | some root => (root.childPaths.getD []).filterMap (materializeItem m m.length)
  | none => []

/-- Set the recorded content on the entry at `p`, when present. -/
def setContent : EntryMap → String → String → EntryMap
  | [], _, _ => []
  | (k, it) :: rest, p, c =>
    if k = p then (k, { it with content := some c }) :: rest
    else (k, it) :: setContent rest p c

/-- `getFileContentTree`: register all nodes, batch-read every file
node's content (failures becoming placeholder strings), assign the
contents, then attach every non-root node to its parent and return the
root's materialized children. -/
def getFileContentTree (env : FileEnv) (output containerPath : String) : List FileItem :=
  let paths := parsePaths output containerPath
  let m1 : EntryMap := paths.foldl
    (fun m p => setEntry m p (mkTreeItem env containerPath p))
    [(containerPath, rootRawItem)]
  let filesToRead := paths.filter (fun p => !(getFileStat env p))
  let fileContents := readFilesBatch env filesToRead
  let m2 := fileContents.foldl (fun m e => setContent m e.1 e.2) m1
  let m3 := (m2.drop 1).foldl (fun m e => pushChild m (parentKeyOf containerPath e.1) e.1) m2
  match lookupEntry m3 containerPath with
  | some root => (root.childPaths.getD []).filterMap (materializeItem m3 m3.length)
  | none => []

/-- External effects of one `writeFile` call, in order. -/
inductive WEff where
  | tempWrite
  | copyCmd
  | mkdirCmd
  | verifyCmd
  | unlinkCall
  deriving DecidableEq

/-- Outcomes of the individual steps of one `writeFile` call.  The two
copy attempts run the same command at different times, so their outcomes
are independent inputs. -/
structure WriteEnv where
  tempWriteFails : Bool
  copyFails : Bool
  mkdirFails : Bool
  retryCopyFails : Bool
  verifyFails : Bool
  unlinkFails : Bool

/-- `writeFile`: write the local temp file, copy it into the container
(on failure, `mkdir -p` the destination directory remotely and retry the
copy once), run the best-effort verification read (its failure is only
logged), and unlink the temp file; the catch-all also attempts the
unlink before rethrowing. -/
def writeFile (env : WriteEnv) : Except String Unit × List WEff :=
  if env.tempWriteFails then
    (Except.error "command failed", [WEff.tempWrite, WEff.unlinkCall])
  else if !env.copyFails then
    if env.unlinkFails then
      (Except.error "command failed",
        [WEff.tempWrite, WEff.copyCmd, WEff.verifyCmd, WEff.unlinkCall, WEff.unlinkCall])
    else
      (Except.ok (), [WEff.tempWrite, WEff.copyCmd, WEff.verifyCmd, WEff.unlinkCall])
  else if env.mkdirFails then
    (Except.error "command failed",
      [WEff.tempWrite, WEff.copyCmd, WEff.mkdirCmd, WEff.unlinkCall])
  else if env.retryCopyFails then
    (Except.error "command failed",
      [WEff.tempWrite, WEff.copyCmd, WEff.mkdirCmd, WEff.copyCmd, WEff.unlinkCall])
  else if env.unlinkFails then
    (Except.error "command failed",
      [WEff.tempWrite, WEff.copyCmd, WEff.mkdirCmd, WEff.copyCmd, WEff.verifyCmd,
        WEff.unlinkCall, WEff.unlinkCall])
  else
    (Except.ok (),
      [WEff.tempWrite, WEff.copyCmd, WEff.mkdirCmd, WEff.copyCmd, WEff.verifyCmd,
        WEff.unlinkCall])

/-! Helper lemmas about the allocation scan loop. -/

theorem scan_fst_ok (env : PortEnv) (allUsed : List Nat) :
    ∀ fuel port p, (findAvailablePortScan env allUsed port fuel).1 = some p →
      port ≤ p ∧ p < port + fuel ∧ p ∉ allUsed ∧ isPortAvailable env p = true := by
  intro fuel
  induction fuel with
  | zero => intro port p h; simp [findAvailablePortScan] at h
  | succ n ih =>
    intro port p h
    simp only [findAvailablePortScan] at h
    by_cases hm : port ∈ allUsed
    · rw [if_pos hm] at h
      obtain ⟨h1, h2, h3, h4⟩ := ih (port + 1) p h
      exact ⟨by omega, by omega, h3, h4⟩
    · rw [if_neg hm] at h
      by_cases ha : isPortAvailable env port
      · rw [if_pos ha] at h
        cases h
        exact ⟨Nat.le_refl _, by omega, hm, ha⟩
      · rw [if_neg ha] at h
        obtain ⟨h1, h2, h3, h4⟩ := ih (port + 1) p h
        exact ⟨by omega, by omega, h3, h4⟩

theorem scan_fst_none_iff (env : PortEnv) (allUsed : List Nat) :
    ∀ fuel port, (findAvailablePortScan env allUsed port fuel).1 = none ↔
      ∀ q, port ≤ q → q < port + fuel →
        q ∈ allUsed ∨ isPortAvailable env q = false := by
  intro fuel
  induction fuel with
  | zero =>
    intro port
    constructor
    · intro _ q h1 h2
      exact absurd h2 (by omega)
    · intro _
      rfl
  | succ n ih =>
    intro port
    simp only [findAvailablePortScan]
    by_cases hm : port ∈ allUsed
    · rw [if_pos hm]
      constructor
      · intro h q h1 h2
        rcases Nat.eq_or_lt_of_le h1 with h1 | h1
        · exact Or.inl (h1 ▸ hm)
        · exact (ih (port + 1)).mp h q h1 (by omega)
      · intro h
        exact (ih (port + 1)).mpr (fun q h1 h2 => h q (by omega) (by omega))
    · rw [if_neg hm]
      by_cases ha : isPortAvailable env port
      · rw [if_pos ha]
        constructor
        · intro h; cases h
        · intro h
          rcases h port (Nat.le_refl _) (by omega) with h | h
          · exact absurd h hm
          · rw [ha] at h; cases h
      · rw [if_neg ha]
        constructor
        · intro h q h1 h2
          rcases Nat.eq_or_lt_of_le h1 with h1 | h1
          · subst h1; exact Or.inr (by simpa using ha)
          · exact (ih (port + 1)).mp h q h1 (by omega)
        · intro h
          exact (ih (port + 1)).mpr (fun q h1 h2 => h q (by omega) (by omega))

theorem scan_probe_mem (env : PortEnv) (allUsed : List Nat) :
    ∀ fuel port q, Eff.probe q ∈ (findAvailablePortScan env allUsed port fuel).2 →
      port ≤ q ∧ q < port + fuel := by
  intro fuel
  induction fuel with
  | zero => intro port q h; simp [findAvailablePortScan] at h
  | succ n ih =>
    intro port q h
    simp only [findAvailablePortScan] at h
    by_cases hm : port ∈ allUsed
    · rw [if_pos hm] at h
      obtain ⟨h1, h2⟩ := ih (port + 1) q h
      exact ⟨by omega, by omega⟩
    · rw [if_neg hm] at h
      by_cases ha : isPortAvailable env port
      · rw [if_pos ha] at h
        simp only [List.mem_singleton, Eff.probe.injEq] at h
        omega
      · rw [if_neg ha] at h
        simp only [List.mem_cons, Eff.probe.injEq] at h
        rcases h with h | h
        · omega
        · obtain ⟨h1, h2⟩ := ih (port + 1) q h
          exact ⟨by omega, by omega⟩

/-- C1: `findAvailablePort(startPort)` scans only the window
`[startPort, startPort + 999]` (every probe it issues is in the window),
fails with exactly the port-exhaustion error precisely when every window
candidate is reserved, runtime-assigned, or OS-occupied, and any returned
port was in neither the local reservation set nor the runtime-assigned
ports at decision time, was OS-free, and is added to the local
reservation set before being returned. -/
theorem findAvailablePort_spec (env : PortEnv) (used : UsedPorts) (startPort : Nat) :
    (∀ p, (findAvailablePort env used startPort).res = Except.ok p →
       startPort ≤ p ∧ p < startPort + 1000 ∧
       p ∉ used ∧ p ∉ getAllAssignedPorts env ∧ isPortAvailable env p = true ∧
       (findAvailablePort env used startPort).used = addPort used p) ∧
    ((findAvailablePort env used startPort).res = Except.error "No available ports found" ↔
       ∀ q, startPort ≤ q → q < startPort + 1000 →
         q ∈ used ∨ q ∈ getAllAssignedPorts env ∨ isPortAvailable env q = false) ∧
    (∀ q, Eff.probe q ∈ (findAvailablePort env used startPort).effs →
       startPort ≤ q ∧ q < startPort + 1000) ∧
    ((findAvailablePort env used startPort).res = Except.error "No available ports found" →
       (findAvailablePort env used startPort).used = used) := by
  rcases hs : findAvailablePortScan env (used ++ getAllAssignedPorts env) startPort 1000
    with ⟨o, effs⟩
  have hfst : (findAvailablePortScan env (used ++ getAllAssignedPorts env) startPort 1000).1
      = o := (congrArg Prod.fst hs).trans rfl
  have hsnd : (findAvailablePortScan env (used ++ getAllAssignedPorts env) startPort 1000).2
      = effs := (congrArg Prod.snd hs).trans rfl
  cases o with
  | some p0 =>
    have hout : findAvailablePort env used startPort =
        ⟨Except.ok p0, addPort used p0, Eff.psQuery :: effs ++ [Eff.reserve p0]⟩ := by
      simp only [findAvailablePort]
      rw [hs]
    have hres : (findAvailablePort env used startPort).res = Except.ok p0 :=
      (congrArg PortOut.res hout).trans rfl
    have hused : (findAvailablePort env used startPort).used = addPort used p0 :=
      (congrArg PortOut.used hout).trans rfl
    have heffs : (findAvailablePort env used startPort).effs =
        Eff.psQuery :: effs ++ [Eff.reserve p0] :=
      (congrArg PortOut.effs hout).trans rfl
    have hok := scan_fst_ok env (used ++ getAllAssignedPorts env) 1000 startPort p0 hfst
    have hmem : p0 ∉ used ∧ p0 ∉ getAllAssignedPorts env := by
      have h := hok.2.2.1
      rw [List.mem_append] at h
      exact ⟨fun hc => h (Or.inl hc), fun hc => h (Or.inr hc)⟩
    refine ⟨?_, ?_, ?_, ?_⟩
    · intro p hp
      have hpp : Except.ok (ε := String) p0 = Except.ok p := hres.symm.trans hp
      injection hpp with hpp
      subst hpp
      exact ⟨hok.1, hok.2.1, hmem.1, hmem.2, hok.2.2.2, hused⟩
    · constructor
      · intro h
        exact Except.noConfusion (hres.symm.trans h)
      · intro h
        have hnone : (findAvailablePortScan env (used ++ getAllAssignedPorts env)
            startPort 1000).1 = none := by
          rw [scan_fst_none_iff]
          intro q h1 h2
          rcases h q h1 h2 with hc | hc | hc
          · exact Or.inl (List.mem_append.mpr (Or.inl hc))
          · exact Or.inl (List.mem_append.mpr (Or.inr hc))
          · exact Or.inr hc
        rw [hfst] at hnone
        exact Option.noConfusion hnone
    · intro q hq
      rw [heffs] at hq
      rcases List.mem_cons.mp hq with hq | hq
      · cases hq
      rcases List.mem_append.mp hq with hq | hq
      · exact scan_probe_mem env (used ++ getAllAssignedPorts env) 1000 startPort q
          (by rw [hsnd]; exact hq)
      · cases List.mem_singleton.mp hq
    · intro h
      exact absurd (hres.symm.trans h) (fun hc => Except.noConfusion hc)
  | none =>
    have hout : findAvailablePort env used startPort =
        ⟨Except.error "No available ports found", used, Eff.psQuery :: effs⟩ := by
      simp only [findAvailablePort]
      rw [hs]
    have hres : (findAvailablePort env used startPort).res =
        Except.error "No available ports found" :=
      (congrArg PortOut.res hout).trans rfl
    have hused : (findAvailablePort env used startPort).used = used :=
      (congrArg PortOut.used hout).trans rfl
    have heffs : (findAvailablePort env used startPort).effs = Eff.psQuery :: effs :=
      (congrArg PortOut.effs hout).trans rfl
    refine ⟨?_, ?_, ?_, ?_⟩
    · intro p hp
      exact Except.noConfusion (hres.symm.trans hp)
    · constructor
      · intro _ q h1 h2
        rcases (scan_fst_none_iff env (used ++ getAllAssignedPorts env) 1000 startPort).mp
            hfst q h1 h2 with h | h
        · rcases List.mem_append.mp h with h | h
          · exact Or.inl h
          · exact Or.inr (Or.inl h)
        · exact Or.inr (Or.inr h)
      · intro _
        exact hres
    · intro q hq
      rw [heffs] at hq
      rcases List.mem_cons.mp hq with hq | hq
      · cases hq
      · exact scan_probe_mem env (used ++ getAllAssignedPorts env) 1000 startPort q
          (by rw [hsnd]; exact hq)
    · intro _
      exact hused

theorem scan_effs_are_probes (env : PortEnv) (allUsed : List Nat) :
    ∀ fuel port e, e ∈ (findAvailablePortScan env allUsed port fuel).2 →
      ∃ q, e = Eff.probe q := by
  intro fuel
  induction fuel with
  | zero => intro port e h; simp [findAvailablePortScan] at h
  | succ n ih =>
    intro port e h
    simp only [findAvailablePortScan] at h
    by_cases hm : port ∈ allUsed
    · rw [if_pos hm] at h
      exact ih (port + 1) e h
    · rw [if_neg hm] at h
      by_cases ha : isPortAvailable env port
      · rw [if_pos ha] at h
        rcases List.mem_singleton.mp h with rfl
        exact ⟨port, rfl⟩
      · rw [if_neg ha] at h
        rcases List.mem_cons.mp h with rfl | h
        · exact ⟨port, rfl⟩
        · exact ih (port + 1) e h

theorem mem_addPort (st : UsedPorts) (p : Nat) : p ∈ addPort st p := by
  unfold addPort
  by_cases h : p ∈ st
  · rw [if_pos h]; exact h
  · rw [if_neg h]
    exact List.mem_append.mpr (Or.inr (List.mem_singleton.mpr rfl))

theorem findAvailablePort_ok_props (env : PortEnv) (used : UsedPorts) (startPort p : Nat)
    (h : (findAvailablePort env used startPort).res = Except.ok p) :
    isPortAvailable env p = true ∧
    (findAvailablePort env used startPort).used = addPort used p ∧
    Eff.reserve p ∈ (findAvailablePort env used startPort).effs := by
  rcases hs : findAvailablePortScan env (used ++ getAllAssignedPorts env) startPort 1000
    with ⟨o, effs⟩
  cases o with
  | some p0 =>
    have hout : findAvailablePort env used startPort =
        ⟨Except.ok p0, addPort used p0, Eff.psQuery :: effs ++ [Eff.reserve p0]⟩ := by
      simp only [findAvailablePort]
      rw [hs]
    have hres : (findAvailablePort env used startPort).res = Except.ok p0 :=
      (congrArg PortOut.res hout).trans rfl
    have hpp : Except.ok (ε := String) p0 = Except.ok p := hres.symm.trans h
    injection hpp with hpp
    subst hpp
    have hfst : (findAvailablePortScan env (used ++ getAllAssignedPorts env) startPort 1000).1
        = some p0 := (congrArg Prod.fst hs).trans rfl
    have hok := scan_fst_ok env (used ++ getAllAssignedPorts env) 1000 startPort p0 hfst
    refine ⟨hok.2.2.2, (congrArg PortOut.used hout).trans rfl, ?_⟩
    rw [(congrArg PortOut.effs hout).trans rfl]
    exact List.mem_cons.mpr (Or.inr (List.mem_append.mpr
      (Or.inr (List.mem_singleton.mpr rfl))))
  | none =>
    have hout : findAvailablePort env used startPort =
        ⟨Except.error "No available ports found", used, Eff.psQuery :: effs⟩ := by
      simp only [findAvailablePort]
      rw [hs]
    have hres : (findAvailablePort env used startPort).res =
        Except.error "No available ports found" :=
      (congrArg PortOut.res hout).trans rfl
    exact absurd (hres.symm.trans h) (fun hc => Except.noConfusion hc)

theorem findAvailablePort_effs_no_startCmd (env : PortEnv) (used : UsedPorts)
    (startPort : Nat) (cid : String) :
    Eff.startCmd cid ∉ (findAvailablePort env used startPort).effs := by
  rcases hs : findAvailablePortScan env (used ++ getAllAssignedPorts env) startPort 1000
    with ⟨o, effs⟩
  have hsnd : (findAvailablePortScan env (used ++ getAllAssignedPorts env) startPort 1000).2
      = effs := (congrArg Prod.snd hs).trans rfl
  have hscan : ∀ e ∈ effs, ∃ q, e = Eff.probe q := by
    intro e he
    exact scan_effs_are_probes env (used ++ getAllAssignedPorts env) 1000 startPort e
      (by rw [hsnd]; exact he)
  cases o with
  | some p0 =>
    have heffs : (findAvailablePort env used startPort).effs =
        Eff.psQuery :: effs ++ [Eff.reserve p0] :=
      (congrArg PortOut.effs (by simp only [findAvailablePort]; rw [hs])).trans rfl
    rw [heffs]
    intro hmem
    rcases List.mem_cons.mp hmem with hc | hc
    · cases hc
    rcases List.mem_append.mp hc with hc | hc
    · rcases hscan _ hc with ⟨q, hq⟩
      cases hq
    · cases List.mem_singleton.mp hc
  | none =>
    have heffs : (findAvailablePort env used startPort).effs = Eff.psQuery :: effs :=
      (congrArg PortOut.effs (by simp only [findAvailablePort]; rw [hs])).trans rfl
    rw [heffs]
    intro hmem
    rcases List.mem_cons.mp hmem with hc | hc
    · cases hc
    · rcases hscan _ hc with ⟨q, hq⟩
      cases hq

theorem findAvailablePort_effs_no_release (env : PortEnv) (used : UsedPorts)
    (startPort p : Nat) :
    Eff.release p ∉ (findAvailablePort env used startPort).effs := by
  rcases hs : findAvailablePortScan env (used ++ getAllAssignedPorts env) startPort 1000
    with ⟨o, effs⟩
  have hsnd : (findAvailablePortScan env (used ++ getAllAssignedPorts env) startPort 1000).2
      = effs := (congrArg Prod.snd hs).trans rfl
  have hscan : ∀ e ∈ effs, ∃ q, e = Eff.probe q := by
    intro e he
    exact scan_effs_are_probes env (used ++ getAllAssignedPorts env) 1000 startPort e
      (by rw [hsnd]; exact he)
  cases o with
  | some p0 =>
    have heffs : (findAvailablePort env used startPort).effs =
        Eff.psQuery :: effs ++ [Eff.reserve p0] :=
      (congrArg PortOut.effs (by simp only [findAvailablePort]; rw [hs])).trans rfl
    rw [heffs]
    intro hmem
    rcases List.mem_cons.mp hmem with hc | hc
    · cases hc
    rcases List.mem_append.mp hc with hc | hc
    · rcases hscan _ hc with ⟨q, hq⟩
      cases hq
    · cases List.mem_singleton.mp hc
  | none =>
    have heffs : (findAvailablePort env used startPort).effs = Eff.psQuery :: effs :=
      (congrArg PortOut.effs (by simp only [findAvailablePort]; rw [hs])).trans rfl
    rw [heffs]
    intro hmem
    rcases List.mem_cons.mp hmem with hc | hc
    · cases hc
    · rcases hscan _ hc with ⟨q, hq⟩
      cases hq

/-- An environment with no runtime-assigned ports and every `lsof` probe
failing (no listener found). -/
def envFree : PortEnv :=
  { psOutput := some "", lsofOutput := fun _ => none,
    startFails := false, stopFails := false, rmFails := false, rmiFails := false }

theorem findAvailablePort_spec_witness :
    8000 ≤ 8000 ∧ 8000 < 8000 + 1000 ∧
    (8000 : Nat) ∉ ([] : UsedPorts) ∧ 8000 ∉ getAllAssignedPorts envFree ∧
    isPortAvailable envFree 8000 = true ∧
    (findAvailablePort envFree [] 8000).used = addPort [] 8000 :=
  (findAvailablePort_spec envFree [] 8000).1 8000 rfl

/-- C2: on a stopped container whose `assignedPort` label records `P`,
`startContainer` reclaims exactly `P` (adding it to the local reservation
set) and issues the runtime start when `P` has no OS listener; when `P`
is occupied, any freshly allocated port differs from `P`,
`startContainer` throws the (wrapped) port-conflict error, and no
runtime start command is issued on that path. -/
theorem startContainer_stopped_spec (env : PortEnv) (cid : String) (info : InspectInfo)
    (used : UsedPorts) (P : Nat)
    (hrun : info.running = false) (hlab : info.assignedPortLabel = some P) :
    (isPortAvailable env P = true → env.startFails = false →
       (startContainer env cid info used).res = Except.ok P ∧
       (startContainer env cid info used).used = addPort used P ∧
       Eff.startCmd cid ∈ (startContainer env cid info used).effs) ∧
    (∀ Q, isPortAvailable env P = false →
       (findAvailablePort env used 8000).res = Except.ok Q →
       Q ≠ P ∧
       (startContainer env cid info used).res =
         Except.error ("Failed to start container: " ++ conflictMsg P) ∧
       Eff.startCmd cid ∉ (startContainer env cid info used).effs) := by
  constructor
  · intro hfree hstart
    have hout : startContainer env cid info used =
        ⟨Except.ok P, addPort used P,
          [Eff.inspect cid, Eff.probe P, Eff.reserve P, Eff.startCmd cid]⟩ := by
      simp [startContainer, hrun, hlab, hfree, hstart]
    refine ⟨(congrArg PortOut.res hout).trans rfl,
      (congrArg PortOut.used hout).trans rfl, ?_⟩
    rw [(congrArg PortOut.effs hout).trans rfl]
    simp
  · intro Q hocc halloc
    have hQfree : isPortAvailable env Q = true :=
      (findAvailablePort_ok_props env used 8000 Q halloc).1
    have hneq : Q ≠ P := by
      intro hc
      rw [hc, hocc] at hQfree
      cases hQfree
    have hneq' : P ≠ Q := fun hc => hneq hc.symm
    have hout : startContainer env cid info used =
        ⟨Except.error ("Failed to start container: " ++ conflictMsg P),
          (findAvailablePort env used 8000).used,
          Eff.inspect cid :: Eff.probe P :: (findAvailablePort env used 8000).effs⟩ := by
      simp [startContainer, hrun, hlab, hocc, halloc, hneq']
    refine ⟨hneq, (congrArg PortOut.res hout).trans rfl, ?_⟩
    rw [(congrArg PortOut.effs hout).trans rfl]
    intro hmem
    rcases List.mem_cons.mp hmem with hc | hc
    · cases hc
    rcases List.mem_cons.mp hc with hc | hc
    · cases hc
    · exact findAvailablePort_effs_no_startCmd env used 8000 cid hc

/-- A stopped container whose label records port 8005, which is occupied
in `envBusy8005` while every other port is free. -/
def envBusy8005 : PortEnv :=
  { psOutput := some "", lsofOutput := fun p => if p = 8005 then some "node 1 x" else none,
    startFails := false, stopFails := false, rmFails := false, rmiFails := false }

/-- A stopped container labelled with port 8005. -/
def infoStopped8005 : InspectInfo :=
  { running := false, hostPortBinding := none, assignedPortLabel := some 8005,
    image := "dec-nextjs-demo" }

/-- A stopped container labelled with port 8005, started under the free
environment. -/
theorem startContainer_stopped_spec_witness :
    ((startContainer envFree "c1" infoStopped8005 []).res = Except.ok 8005 ∧
     (startContainer envFree "c1" infoStopped8005 []).used = addPort [] 8005 ∧
     Eff.startCmd "c1" ∈ (startContainer envFree "c1" infoStopped8005 []).effs) ∧
    ((8000 : Nat) ≠ 8005 ∧
     (startContainer envBusy8005 "c2" infoStopped8005 []).res =
       Except.error ("Failed to start container: " ++ conflictMsg 8005) ∧
     Eff.startCmd "c2" ∉ (startContainer envBusy8005 "c2" infoStopped8005 []).effs) :=
  ⟨(startContainer_stopped_spec envFree "c1" infoStopped8005 [] 8005 rfl rfl).1 rfl rfl,
   (startContainer_stopped_spec envBusy8005 "c2" infoStopped8005 [] 8005 rfl rfl).2
     8000 rfl rfl⟩

/-- C9: on the port-conflict path of `startContainer` (stopped container,
occupied labelled port `P`, fresh port `Q` allocated), the freshly
allocated `Q` was reserved by `findAvailablePort`, remains in the local
reservation set of the error outcome, and no release of `Q` is ever
issued on that path. -/
theorem startContainer_conflict_reservation_leak (env : PortEnv) (cid : String)
    (info : InspectInfo) (used : UsedPorts) (P Q : Nat)
    (hrun : info.running = false) (hlab : info.assignedPortLabel = some P)
    (hocc : isPortAvailable env P = false)
    (halloc : (findAvailablePort env used 8000).res = Except.ok Q) :
    (startContainer env cid info used).res =
      Except.error ("Failed to start container: " ++ conflictMsg P) ∧
    Q ∈ (startContainer env cid info used).used ∧
    Eff.reserve Q ∈ (startContainer env cid info used).effs ∧
    Eff.release Q ∉ (startContainer env cid info used).effs := by
  obtain ⟨hQfree, hQused, hQres⟩ := findAvailablePort_ok_props env used 8000 Q halloc
  have hneq' : P ≠ Q := by
    intro hc
    rw [← hc, hocc] at hQfree
    cases hQfree
  have hout : startContainer env cid info used =
      ⟨Except.error ("Failed to start container: " ++ conflictMsg P),
        (findAvailablePort env used 8000).used,
        Eff.inspect cid :: Eff.probe P :: (findAvailablePort env used 8000).effs⟩ := by
    simp [startContainer, hrun, hlab, hocc, halloc, hneq']
  refine ⟨(congrArg PortOut.res hout).trans rfl, ?_, ?_, ?_⟩
  · rw [(congrArg PortOut.used hout).trans rfl, hQused]
    exact mem_addPort used Q
  · rw [(congrArg PortOut.effs hout).trans rfl]
    exact List.mem_cons.mpr (Or.inr (List.mem_cons.mpr (Or.inr hQres)))
  · rw [(congrArg PortOut.effs hout).trans rfl]
    intro hmem
    rcases List.mem_cons.mp hmem with hc | hc
    · cases hc
    rcases List.mem_cons.mp hc with hc | hc
    · cases hc
    · exact findAvailablePort_effs_no_release env used 8000 Q hc

/-- The conflict path taken concretely: label 8005 occupied, 8000 freshly
allocated and left reserved. -/
theorem startContainer_conflict_reservation_leak_witness :
    (startContainer envBusy8005 "c2" infoStopped8005 []).res =
      Except.error ("Failed to start container: " ++ conflictMsg 8005) ∧
    8000 ∈ (startContainer envBusy8005 "c2" infoStopped8005 []).used ∧
    Eff.reserve 8000 ∈ (startContainer envBusy8005 "c2" infoStopped8005 []).effs ∧
    Eff.release 8000 ∉ (startContainer envBusy8005 "c2" infoStopped8005 []).effs :=
  startContainer_conflict_reservation_leak envBusy8005 "c2" infoStopped8005 []
    8005 8000 rfl rfl rfl rfl

/-- A running container with a live `3000/tcp` binding to host port
8000 (its label agrees). -/
def infoRunning8000 : InspectInfo :=
  { running := true, hostPortBinding := some 8000, assignedPortLabel := some 8000,
    image := "dec-nextjs-demo" }

/-- C3 counterexample: `startContainer` on a running container is NOT
free of side effects on the local port-reservation set — starting from
the empty reservation set it returns the bound port 8000 and leaves the
set changed (the port was inserted by `getPortFromContainer`). -/
theorem startContainer_running_mutates_reservations :
    (startContainer envFree "c1" infoRunning8000 []).res = Except.ok 8000 ∧
    (startContainer envFree "c1" infoRunning8000 []).used ≠ ([] : UsedPorts) := by
  constructor
  · rfl
  · intro h
    cases h

/-- C3 (amended): `startContainer` on a running container returns the
bound port — the `3000/tcp` host binding when present, otherwise the
`assignedPort` label — issues no runtime start command, and its only
effect on the local reservation set is inserting the returned port; with
neither binding nor label it throws the wrapped port-undeterminable
error and leaves the set unchanged. -/
theorem startContainer_running_spec (env : PortEnv) (cid : String) (info : InspectInfo)
    (used : UsedPorts) (hrun : info.running = true) :
    (∀ hb, info.hostPortBinding = some hb →
       (startContainer env cid info used).res = Except.ok hb ∧
       (startContainer env cid info used).used = addPort used hb) ∧
    (info.hostPortBinding = none → ∀ pl, info.assignedPortLabel = some pl →
       (startContainer env cid info used).res = Except.ok pl ∧
       (startContainer env cid info used).used = addPort used pl) ∧
    Eff.startCmd cid ∉ (startContainer env cid info used).effs ∧
    (info.hostPortBinding = none → info.assignedPortLabel = none →
       (startContainer env cid info used).res =
         Except.error "Failed to start container: Could not determine container port" ∧
       (startContainer env cid info used).used = used) := by
  refine ⟨?_, ?_, ?_, ?_⟩
  · intro hb hhb
    have hout : startContainer env cid info used =
        ⟨Except.ok hb, addPort used hb, [Eff.inspect cid, Eff.reserve hb]⟩ := by
      simp [startContainer, hrun, getPortFromContainer, hhb]
    exact ⟨(congrArg PortOut.res hout).trans rfl, (congrArg PortOut.used hout).trans rfl⟩
  · intro hhb pl hpl
    have hout : startContainer env cid info used =
        ⟨Except.ok pl, addPort used pl, [Eff.inspect cid, Eff.reserve pl]⟩ := by
      simp [startContainer, hrun, getPortFromContainer, hhb, hpl]
    exact ⟨(congrArg PortOut.res hout).trans rfl, (congrArg PortOut.used hout).trans rfl⟩
  · cases hhb : info.hostPortBinding with
    | some hb =>
      have hout : startContainer env cid info used =
          ⟨Except.ok hb, addPort used hb, [Eff.inspect cid, Eff.reserve hb]⟩ := by
        simp [startContainer, hrun, getPortFromContainer, hhb]
      rw [(congrArg PortOut.effs hout).trans rfl]
      simp
    | none =>
      cases hpl : info.assignedPortLabel with
      | some pl =>
        have hout : startContainer env cid info used =
            ⟨Except.ok pl, addPort used pl, [Eff.inspect cid, Eff.reserve pl]⟩ := by
          simp [startContainer, hrun, getPortFromContainer, hhb, hpl]
        rw [(congrArg PortOut.effs hout).trans rfl]
        simp
      | none =>
        have hout : startContainer env cid info used =
            ⟨Except.error "Failed to start container: Could not determine container port",
              used, [Eff.inspect cid]⟩ := by
          simp [startContainer, hrun, getPortFromContainer, hhb, hpl]
        rw [(congrArg PortOut.effs hout).trans rfl]
        simp
  · intro hhb hpl
    have hout : startContainer env cid info used =
        ⟨Except.error "Failed to start container: Could not determine container port",
          used, [Eff.inspect cid]⟩ := by
      simp [startContainer, hrun, getPortFromContainer, hhb, hpl]
    exact ⟨(congrArg PortOut.res hout).trans rfl, (congrArg PortOut.used hout).trans rfl⟩

/-- The amended running-container behaviour at a concrete input. -/
theorem startContainer_running_spec_witness :
    (startContainer envFree "c1" infoRunning8000 []).res = Except.ok 8000 ∧
    (startContainer envFree "c1" infoRunning8000 []).used = addPort [] 8000 ∧
    Eff.startCmd "c1" ∉ (startContainer envFree "c1" infoRunning8000 []).effs :=
  ⟨((startContainer_running_spec envFree "c1" infoRunning8000 [] rfl).1 8000 rfl).1,
   ((startContainer_running_spec envFree "c1" infoRunning8000 [] rfl).1 8000 rfl).2,
   (startContainer_running_spec envFree "c1" infoRunning8000 [] rfl).2.2.1⟩

/-- C4: `deleteContainer`, when the container's port is resolvable and
the stop/remove commands succeed, returns successfully whatever the
image-removal outcome; it issues the runtime stop before the runtime
remove exactly when the container was running; it releases the
container's port exactly once (and the port is absent from the final
reservation set) whether or not the container was running; and the
image removal is attempted exactly when the image name matches the
`dec-nextjs-` naming convention. -/
theorem deleteContainer_spec (env : PortEnv) (cid : String) (info : InspectInfo)
    (used : UsedPorts) (port : Nat)
    (hport : (getPortFromContainer info used).res = Except.ok port)
    (hstop : env.stopFails = false) (hrm : env.rmFails = false) :
    (deleteContainer env cid info used).res = Except.ok () ∧
    (deleteContainer env cid info used).effs.count (Eff.release port) = 1 ∧
    (info.running = true → ∃ l1 l2 l3,
       (deleteContainer env cid info used).effs
         = l1 ++ Eff.stopCmd cid :: l2 ++ Eff.rmCmd cid :: l3) ∧
    (info.running = false → Eff.stopCmd cid ∉ (deleteContainer env cid info used).effs) ∧
    (Eff.rmiCmd info.image ∈ (deleteContainer env cid info used).effs ↔
       (info.image != "" && includesJS info.image "dec-nextjs-") = true) ∧
    port ∉ (deleteContainer env cid info used).used := by
  have hgp : getPortFromContainer info used =
      ⟨Except.ok port, addPort used port, [Eff.reserve port]⟩ := by
    cases hhb : info.hostPortBinding with
    | some hb =>
      have h1 : getPortFromContainer info used =
          ⟨Except.ok hb, addPort used hb, [Eff.reserve hb]⟩ := by
        simp [getPortFromContainer, hhb]
      have h2 : Except.ok (ε := String) hb = Except.ok port :=
        ((congrArg PortOut.res h1).trans rfl).symm.trans hport
      injection h2 with h2
      subst h2
      exact h1
    | none =>
      cases hpl : info.assignedPortLabel with
      | some pl =>
        have h1 : getPortFromContainer info used =
            ⟨Except.ok pl, addPort used pl, [Eff.reserve pl]⟩ := by
          simp [getPortFromContainer, hhb, hpl]
        have h2 : Except.ok (ε := String) pl = Except.ok port :=
          ((congrArg PortOut.res h1).trans rfl).symm.trans hport
        injection h2 with h2
        subst h2
        exact h1
      | none =>
        have h1 : getPortFromContainer info used =
            ⟨Except.error "Could not determine container port", used, []⟩ := by
          simp [getPortFromContainer, hhb, hpl]
        have h2 := ((congrArg PortOut.res h1).trans rfl).symm.trans hport
        exact absurd h2 (fun hc => Except.noConfusion hc)
  cases hrunb : info.running with
  | true =>
    cases himg : (info.image != "" && includesJS info.image "dec-nextjs-") with
    | true =>
      have hout : deleteContainer env cid info used =
          ⟨Except.ok (), deletePort (addPort used port) port,
            [Eff.inspect cid, Eff.reserve port, Eff.release port, Eff.stopCmd cid,
              Eff.rmCmd cid, Eff.rmiCmd info.image]⟩ := by
        simp [deleteContainer, hgp, hstop, hrm, hrunb, himg]
      have heffs : (deleteContainer env cid info used).effs =
          [Eff.inspect cid, Eff.reserve port, Eff.release port, Eff.stopCmd cid,
            Eff.rmCmd cid, Eff.rmiCmd info.image] :=
        (congrArg PortOut.effs hout).trans rfl
      have hused : (deleteContainer env cid info used).used =
          deletePort (addPort used port) port :=
        (congrArg PortOut.used hout).trans rfl
      refine ⟨(congrArg PortOut.res hout).trans rfl, ?_, ?_, ?_, ?_, ?_⟩
      · rw [heffs]
        simp [List.count_cons]
      · intro _
        exact ⟨[Eff.inspect cid, Eff.reserve port, Eff.release port], [],
          [Eff.rmiCmd info.image], by simp [heffs]⟩
      · intro hc
        cases hc
      · rw [heffs]
        simp
      · rw [hused]
        simp [deletePort, List.mem_filter]
    | false =>
      have hout : deleteContainer env cid info used =
          ⟨Except.ok (), deletePort (addPort used port) port,
            [Eff.inspect cid, Eff.reserve port, Eff.release port, Eff.stopCmd cid,
              Eff.rmCmd cid]⟩ := by
        simp [deleteContainer, hgp, hstop, hrm, hrunb, himg]
      have heffs : (deleteContainer env cid info used).effs =
          [Eff.inspect cid, Eff.reserve port, Eff.release port, Eff.stopCmd cid,
            Eff.rmCmd cid] :=
        (congrArg PortOut.effs hout).trans rfl
      have hused : (deleteContainer env cid info used).used =
          deletePort (addPort used port) port :=
        (congrArg PortOut.used hout).trans rfl
      refine ⟨(congrArg PortOut.res hout).trans rfl, ?_, ?_, ?_, ?_, ?_⟩
      · rw [heffs]
        simp [List.count_cons]
      · intro _
        exact ⟨[Eff.inspect cid, Eff.reserve port, Eff.release port], [], [],
          by simp [heffs]⟩
      · intro hc
        cases hc
      · rw [heffs]
        simp
      · rw [hused]
        simp [deletePort, List.mem_filter]
  | false =>
    cases himg : (info.image != "" && includesJS info.image "dec-nextjs-") with
    | true =>
      have hout : deleteContainer env cid info used =
          ⟨Except.ok (), deletePort (addPort used port) port,
            [Eff.inspect cid, Eff.reserve port, Eff.release port,
              Eff.rmCmd cid, Eff.rmiCmd info.image]⟩ := by
        simp [deleteContainer, hgp, hstop, hrm, hrunb, himg]
      have heffs : (deleteContainer env cid info used).effs =
          [Eff.inspect cid, Eff.reserve port, Eff.release port,
            Eff.rmCmd cid, Eff.rmiCmd info.image] :=
        (congrArg PortOut.effs hout).trans rfl
      have hused : (deleteContainer env cid info used).used =
          deletePort (addPort used port) port :=
        (congrArg PortOut.used hout).trans rfl
      refine ⟨(congrArg PortOut.res hout).trans rfl, ?_, ?_, ?_, ?_, ?_⟩
      · rw [heffs]
        simp [List.count_cons]
      · intro hc
        cases hc
      · intro _
        rw [heffs]
        simp
      · rw [heffs]
        simp
      · rw [hused]
        simp [deletePort, List.mem_filter]
    | false =>
      have hout : deleteContainer env cid info used =
          ⟨Except.ok (), deletePort (addPort used port) port,
            [Eff.inspect cid, Eff.reserve port, Eff.release port, Eff.rmCmd cid]⟩ := by
        simp [deleteContainer, hgp, hstop, hrm, hrunb, himg]
      have heffs : (deleteContainer env cid info used).effs =
          [Eff.inspect cid, Eff.reserve port, Eff.release port, Eff.rmCmd cid] :=
        (congrArg PortOut.effs hout).trans rfl
      have hused : (deleteContainer env cid info used).used =
          deletePort (addPort used port) port :=
        (congrArg PortOut.used hout).trans rfl
      refine ⟨(congrArg PortOut.res hout).trans rfl, ?_, ?_, ?_, ?_, ?_⟩
      · rw [heffs]
        simp [List.count_cons]
      · intro hc
        cases hc
      · intro _
        rw [heffs]
        simp
      · rw [heffs]
        simp
      · rw [hused]
        simp [deletePort, List.mem_filter]

/-- Deleting a concrete running container under the free environment. -/
theorem deleteContainer_spec_witness :
    (deleteContainer envFree "c1" infoRunning8000 []).res = Except.ok () ∧
    (deleteContainer envFree "c1" infoRunning8000 []).effs.count (Eff.release 8000) = 1 ∧
    (8000 : Nat) ∉ (deleteContainer envFree "c1" infoRunning8000 []).used ∧
    Eff.rmiCmd "dec-nextjs-demo" ∈ (deleteContainer envFree "c1" infoRunning8000 []).effs :=
  ⟨(deleteContainer_spec envFree "c1" infoRunning8000 [] 8000 rfl rfl rfl).1,
   (deleteContainer_spec envFree "c1" infoRunning8000 [] 8000 rfl rfl rfl).2.1,
   (deleteContainer_spec envFree "c1" infoRunning8000 [] 8000 rfl rfl rfl).2.2.2.2.2,
   (deleteContainer_spec envFree "c1" infoRunning8000 [] 8000 rfl rfl rfl).2.2.2.2.1.mpr
     (by decide)⟩

/-- C5: two concurrent `findAvailablePort(8000)` calls racing under the
schedule `[0, 1, 0, 1]` — call 0 takes its snapshot, call 1 takes its
snapshot, call 0's probe resolves (reserving 8000), call 1's probe
resolves — both return port 8000, although no runtime-assigned ports
exist and no port in the scan window has an OS listener.  The snapshot
check happens before the awaited probe, so the in-process serialization
the claim relies on does not hold and the returned ports are not
pairwise distinct. -/
theorem concurrent_allocate_duplicate :
    getAllAssignedPorts envFree = [] ∧
    (∀ p, envFree.lsofOutput p = none) ∧
    runSchedule envFree
        ⟨[], [CallPhase.waitingSnapshot 8000, CallPhase.waitingSnapshot 8000]⟩
        [0, 1, 0, 1] =
      ⟨[8000], [CallPhase.done 8000, CallPhase.done 8000]⟩ :=
  ⟨rfl, fun _ => rfl, rfl⟩

/-- C8: `writeFile` attempts removal of its local temporary file on every
outcome; when the initial copy fails it creates the destination
directory remotely and retries the copy exactly once (two copy attempts
in total); and a failing verification read never fails the write — when
the temp write and the unlink succeed and either copy path succeeds, the
result is success regardless of the verification outcome. -/
theorem writeFile_spec (env : WriteEnv) :
    WEff.unlinkCall ∈ (writeFile env).2 ∧
    (env.tempWriteFails = false → env.copyFails = true →
       WEff.mkdirCmd ∈ (writeFile env).2 ∧
       (env.mkdirFails = false → (writeFile env).2.count WEff.copyCmd = 2)) ∧
    (env.tempWriteFails = false → env.unlinkFails = false →
       (env.copyFails = false ∨ (env.mkdirFails = false ∧ env.retryCopyFails = false)) →
       (writeFile env).1 = Except.ok ()) := by
  rcases env with ⟨t, c, m, r, v, u⟩
  cases t <;> cases c <;> cases m <;> cases r <;> cases v <;> cases u <;>
    simp [writeFile, List.count_cons]

/-- The copy-fails-then-retry-succeeds path with a failing verification
read: the write succeeds, two copy attempts were made, the directory was
created, and the temp file was unlinked. -/
theorem writeFile_spec_witness :
    WEff.unlinkCall ∈ (writeFile ⟨false, true, false, false, true, false⟩).2 ∧
    WEff.mkdirCmd ∈ (writeFile ⟨false, true, false, false, true, false⟩).2 ∧
    (writeFile ⟨false, true, false, false, true, false⟩).2.count WEff.copyCmd = 2 ∧
    (writeFile ⟨false, true, false, false, true, false⟩).1 = Except.ok () :=
  ⟨(writeFile_spec ⟨false, true, false, false, true, false⟩).1,
   ((writeFile_spec ⟨false, true, false, false, true, false⟩).2.1 rfl rfl).1,
   ((writeFile_spec ⟨false, true, false, false, true, false⟩).2.1 rfl rfl).2 rfl,
   (writeFile_spec ⟨false, true, false, false, true, false⟩).2.2 rfl rfl
     (Or.inr ⟨rfl, rfl⟩)⟩

/-! Helper lemmas about the association-list maps. -/

theorem lookupEntry_setEntry {α : Type} (m : List (String × α)) (k : String) (v : α)
    (q : String) :
    lookupEntry (setEntry m k v) q = if k = q then some v else lookupEntry m q := by
  induction m with
  | nil =>
    simp only [setEntry, lookupEntry]
  | cons e rest ih =>
    obtain ⟨k', v'⟩ := e
    simp only [setEntry]
    by_cases h1 : k' = k
    · rw [if_pos h1]
      subst h1
      simp only [lookupEntry]
      by_cases h2 : k' = q <;> simp [h2]
    · rw [if_neg h1]
      simp only [lookupEntry]
      by_cases h2 : k' = q
      · subst h2
        rw [if_pos rfl, if_pos rfl, if_neg (fun hc => h1 hc.symm)]
      · rw [if_neg h2, if_neg h2, ih]

theorem lookupEntry_pushChild_isSome (m : EntryMap) (a b k : String) :
    (lookupEntry (pushChild m a b) k).isSome = (lookupEntry m k).isSome := by
  induction m with
  | nil => rfl
  | cons e rest ih =>
    obtain ⟨k', it⟩ := e
    simp only [pushChild]
    by_cases h1 : k' = a
    · rw [if_pos h1]
      rcases hcp : it.childPaths with _ | l <;> simp only [lookupEntry] <;>
        by_cases h2 : k' = k <;> simp [h2]
    · rw [if_neg h1]
      simp only [lookupEntry]
      by_cases h2 : k' = k
      · simp [h2]
      · simp [h2, ih]

theorem lookupEntry_pushChild_of_none (m : EntryMap) (a b k : String) (it : RawItem)
    (hit : lookupEntry m k = some it) (hnone : it.childPaths = none) :
    lookupEntry (pushChild m a b) k = some it := by
  induction m with
  | nil => cases hit
  | cons e rest ih =>
    obtain ⟨k', it'⟩ := e
    simp only [lookupEntry] at hit
    simp only [pushChild]
    by_cases h1 : k' = a
    · rw [if_pos h1]
      by_cases h2 : k' = k
      · rw [if_pos h2] at hit
        injection hit with hit
        rcases hcp : it'.childPaths with _ | l
        · simp only [hcp, lookupEntry]
          rw [if_pos h2, hit]
        · rw [hit, hnone] at hcp
          cases hcp
      · rw [if_neg h2] at hit
        rcases hcp : it'.childPaths with _ | l <;> simp only [hcp, lookupEntry] <;>
          rw [if_neg h2] <;> exact hit
    · rw [if_neg h1]
      simp only [lookupEntry]
      by_cases h2 : k' = k
      · rw [if_pos h2] at hit
        rw [if_pos h2]
        exact hit
      · rw [if_neg h2] at hit
        rw [if_neg h2]
        exact ih hit

theorem readFileBatchEntry_fst (env : FileEnv) (p : String) :
    (readFileBatchEntry env p).1 = p := by
  unfold readFileBatchEntry
  rcases readFile env p with _ | _ <;> rfl

theorem lookupEntry_foldl_set {α : Type} (f : String → α) :
    ∀ (l : List String) (m : List (String × α)) (q : String),
      lookupEntry (l.foldl (fun acc p => setEntry acc p (f p)) m) q =
        if q ∈ l then some (f q) else lookupEntry m q := by
  intro l
  induction l with
  | nil =>
    intro m q
    simp
  | cons p l ih =>
    intro m q
    simp only [List.foldl_cons]
    rw [ih]
    by_cases hq : q ∈ l
    · rw [if_pos hq, if_pos (List.mem_cons.mpr (Or.inr hq))]
    · rw [if_neg hq, lookupEntry_setEntry]
      by_cases hqp : q = p
      · subst hqp
        rw [if_pos rfl, if_pos (List.mem_cons.mpr (Or.inl rfl))]
      · rw [if_neg (fun hc => hqp hc.symm),
          if_neg (fun hc => (List.mem_cons.mp hc).elim hqp hq)]

theorem foldl_setEntry_map (env : FileEnv) :
    ∀ (batch : List String) (m : List (String × String)),
      (batch.map (readFileBatchEntry env)).foldl (fun acc e => setEntry acc e.1 e.2) m =
        batch.foldl (fun acc x => setEntry acc x (batchContentOf env x)) m := by
  intro batch
  induction batch with
  | nil => intro m; rfl
  | cons p rest ih =>
    intro m
    simp only [List.map_cons, List.foldl_cons]
    rw [readFileBatchEntry_fst]
    exact ih _

theorem readFilesBatchGo_lookup (env : FileEnv) :
    ∀ fuel (paths : List String) (m : List (String × String)) (q : String),
      paths.length ≤ fuel →
      lookupEntry (readFilesBatchGo env fuel m paths) q =
        if q ∈ paths then some (batchContentOf env q) else lookupEntry m q := by
  intro fuel
  induction fuel with
  | zero =>
    intro paths m q hlen
    have hnil : paths = [] := List.length_eq_zero.mp (Nat.le_zero.mp hlen)
    subst hnil
    simp [readFilesBatchGo]
  | succ n ih =>
    intro paths m q hlen
    cases paths with
    | nil => simp [readFilesBatchGo]
    | cons p rest =>
      have hstep : readFilesBatchGo env (n + 1) m (p :: rest) =
          readFilesBatchGo env n
            (((p :: rest).take 50).foldl
              (fun acc x => setEntry acc x (batchContentOf env x)) m)
            ((p :: rest).drop 50) := by
        simp only [readFilesBatchGo]
        rw [foldl_setEntry_map]
      rw [hstep]
      have hdlen : ((p :: rest).drop 50).length ≤ n := by
        rw [List.length_drop]
        simp only [List.length_cons] at hlen ⊢
        omega
      rw [ih _ _ _ hdlen, lookupEntry_foldl_set]
      by_cases hq : q ∈ p :: rest
      · have hq2 := hq
        rw [← List.take_append_drop 50 (p :: rest)] at hq2
        rw [if_pos hq]
        rcases List.mem_append.mp hq2 with hq2 | hq2
        · by_cases hq3 : q ∈ (p :: rest).drop 50
          · rw [if_pos hq3]
          · rw [if_neg hq3, if_pos hq2]
        · rw [if_pos hq2]
      · have hq2 : q ∉ (p :: rest).drop 50 := fun hc => hq (List.mem_of_mem_drop hc)
        have hq3 : q ∉ (p :: rest).take 50 := fun hc => hq (List.mem_of_mem_take hc)
        rw [if_neg hq, if_neg hq2, if_neg hq3]

theorem readFilesBatch_lookup (env : FileEnv) (paths : List String) (q : String) :
    lookupEntry (readFilesBatch env paths) q =
      if q ∈ paths then some (batchContentOf env q) else none := by
  unfold readFilesBatch
  rw [readFilesBatchGo_lookup env paths.length paths [] q (Nat.le_refl _)]
  rfl

/-- Remote command results for a two-file tree under `/r` in which
reading `/r/bad.txt` fails with "cat failed" and reading `/r/ok.txt`
yields "hello". -/
def env7 : FileEnv :=
  { statOutput := fun p =>
      if p = "/r/bad.txt" || p = "/r/ok.txt" then some "regular file" else none
    readOutput := fun p =>
      if p = "/r/ok.txt" then Except.ok "hello" else Except.error "cat failed" }

/-- The traversal output naming both files under `/r`. -/
def out7 : String := "/r\n/r/bad.txt\n/r/ok.txt"

/-- C7: an individual file-read failure never fails the content-inclusive
traversal.  In `readFilesBatch`, every requested path is mapped to a
content string; a path whose read failed with message `e` gets exactly
the placeholder "Error reading file: " ++ e, and a path whose read
succeeded gets its read content (BOM-stripped).  Concretely,
`getFileContentTree` on a tree where `/r/bad.txt` fails to read returns
the full forest with the placeholder on the failed file and the intact
content on its sibling. -/
theorem getFileContentTree_read_failure_spec :
    (∀ (env : FileEnv) (paths : List String) (p : String), p ∈ paths →
       lookupEntry (readFilesBatch env paths) p = some (batchContentOf env p)) ∧
    (∀ (env : FileEnv) (p e : String), env.readOutput p = Except.error e →
       batchContentOf env p = "Error reading file: " ++ e) ∧
    (∀ (env : FileEnv) (p c : String), env.readOutput p = Except.ok c →
       batchContentOf env p = dropBOM c) ∧
    getFileContentTree env7 out7 "/r" =
      [FileItem.mk "bad.txt" "/r/bad.txt" FType.file none
         (some "Error reading file: cat failed"),
       FileItem.mk "ok.txt" "/r/ok.txt" FType.file none (some "hello")] := by
  refine ⟨?_, ?_, ?_, rfl⟩
  · intro env paths p hp
    rw [readFilesBatch_lookup, if_pos hp]
  · intro env p e h
    unfold batchContentOf readFileBatchEntry readFile
    rw [h]
    rfl
  · intro env p c h
    unfold batchContentOf readFileBatchEntry readFile
    rw [h]
    rfl

/-- The general `readFilesBatch` facts of C7 applied at the concrete
failing and succeeding files of `env7`. -/
theorem getFileContentTree_read_failure_spec_witness :
    lookupEntry (readFilesBatch env7 ["/r/bad.txt", "/r/ok.txt"]) "/r/bad.txt" =
      some (batchContentOf env7 "/r/bad.txt") ∧
    batchContentOf env7 "/r/bad.txt" = "Error reading file: " ++ "cat failed" ∧
    batchContentOf env7 "/r/ok.txt" = dropBOM "hello" :=
  ⟨getFileContentTree_read_failure_spec.1 env7 ["/r/bad.txt", "/r/ok.txt"] "/r/bad.txt"
     (by decide),
   getFileContentTree_read_failure_spec.2.1 env7 "/r/bad.txt" "cat failed" rfl,
   getFileContentTree_read_failure_spec.2.2.1 env7 "/r/ok.txt" "hello" rfl⟩

theorem mkTreeItem_of_statFail (env : FileEnv) (cPath p : String)
    (h : env.statOutput p = none) :
    mkTreeItem env cPath p = ⟨fileNameOf cPath p, FType.file, none, none⟩ := by
  unfold mkTreeItem getFileStat
  rw [h]
  rfl

theorem buildFold_file_entry (env : FileEnv) (cPath p : String) (it : RawItem)
    (hit : it.childPaths = none) (hmk : mkTreeItem env cPath p = it) :
    ∀ (l : List String) (m : EntryMap),
      (p ∈ l ∨ lookupEntry m p = some it) →
      lookupEntry (l.foldl (treeStep env cPath) m) p = some it := by
  intro l
  induction l with
  | nil =>
    intro m h
    rcases h with h | h
    · cases h
    · exact h
  | cons q l ih =>
    intro m h
    simp only [List.foldl_cons]
    by_cases hpq : p = q
    · subst hpq
      refine ih _ (Or.inr ?_)
      unfold treeStep
      refine lookupEntry_pushChild_of_none _ _ _ _ it ?_ hit
      rw [lookupEntry_setEntry, if_pos rfl, hmk]
    · rcases h with h | h
      · rcases List.mem_cons.mp h with h1 | h1
        · exact absurd h1 hpq
        · exact ih _ (Or.inl h1)
      · refine ih _ (Or.inr ?_)
        unfold treeStep
        refine lookupEntry_pushChild_of_none _ _ _ _ it ?_ hit
        rw [lookupEntry_setEntry, if_neg (fun hc => hpq hc.symm)]
        exact h

/-- Remote command results in which every `stat` fails and every read
fails. -/
def env10 : FileEnv :=
  { statOutput := fun _ => none, readOutput := fun _ => Except.error "exec failed" }

/-- The traversal output naming one path under `/r`. -/
def out10 : String := "/r\n/r/x"

/-- C10: a failing remote `stat` makes `getFileStat` report
not-a-directory, so both tree builders register that path as a file node
with no children slot; the traversal does not fail and the node is not
omitted — concretely, with every `stat` failing, `getFileTree` returns
the path as a file node, and `getFileContentTree` returns it as a file
node carrying its read-failure placeholder content. -/
theorem statFailure_classified_as_file :
    (∀ (env : FileEnv) (p : String), env.statOutput p = none →
       getFileStat env p = false) ∧
    (∀ (env : FileEnv) (cPath : String) (paths : List String) (p : String),
       p ∈ paths → env.statOutput p = none →
       lookupEntry (buildTreeMap env cPath paths) p =
         some ⟨fileNameOf cPath p, FType.file, none, none⟩) ∧
    getFileTree env10 out10 "/r" = [FileItem.mk "x" "/r/x" FType.file none none] ∧
    getFileContentTree env10 out10 "/r" =
      [FileItem.mk "x" "/r/x" FType.file none (some "Error reading file: exec failed")] := by
  refine ⟨?_, ?_, rfl, rfl⟩
  · intro env p h
    unfold getFileStat
    rw [h]
  · intro env cPath paths p hp hstat
    unfold buildTreeMap
    exact buildFold_file_entry env cPath p _ rfl (mkTreeItem_of_statFail env cPath p hstat)
      paths [(cPath, rootRawItem)] (Or.inl hp)

/-- The stat-failure classification applied at the concrete input. -/
theorem statFailure_classified_as_file_witness :
    getFileStat env10 "/r/x" = false ∧
    lookupEntry (buildTreeMap env10 "/r" ["/r/x"]) "/r/x" =
      some ⟨fileNameOf "/r" "/r/x", FType.file, none, none⟩ :=
  ⟨statFailure_classified_as_file.1 env10 "/r/x" rfl,
   statFailure_classified_as_file.2.1 env10 "/r" ["/r/x"] "/r/x" (by decide) rfl⟩

/-- Lexicographic order on strings as character lists (the order the
upstream `| sort` produces on the traversal output). -/
def strLt (a b : String) : Prop :=
  a.data < b.data

instance strLt.instDecidableRel : DecidableRel strLt :=
  fun a b => (inferInstance : Decidable (a.data < b.data))

theorem listChar_lt_append : ∀ (l t : List Char), t ≠ [] → l < l ++ t := by
  intro l
  induction l with
  | nil =>
    intro t ht
    cases t with
    | nil => exact absurd rfl ht
    | cons c cs => exact List.nil_lt_cons c cs
  | cons c l ih =>
    intro t ht
    exact List.Lex.cons (ih t ht)

theorem dropWhile_head_false {α : Type} (q : α → Bool) :
    ∀ (l : List α) (a : α) (as : List α), l.dropWhile q = a :: as → q a = false := by
  intro l
  induction l with
  | nil =>
    intro a as h
    cases h
  | cons x xs ih =>
    intro a as h
    rw [List.dropWhile_cons] at h
    by_cases hx : q x = true
    · rw [if_pos hx] at h
      exact ih a as h
    · rw [if_neg hx] at h
      injection h with h1 h2
      subst h1
      cases hqx : q x with
      | false => rfl
      | true => exact absurd hqx hx

theorem reverse_eq_of_dropWhile {α : Type} (q : α → Bool) (L : List α) (dh : α)
    (dt : List α) (hd : L.dropWhile q = dh :: dt) :
    L.reverse = dt.reverse ++ dh :: (L.takeWhile q).reverse := by
  have hsplit : L = L.takeWhile q ++ dh :: dt := by
    conv_lhs => rw [← List.takeWhile_append_dropWhile (p := q) (l := L)]
    rw [hd]
  calc L.reverse = (L.takeWhile q ++ dh :: dt).reverse := by rw [← hsplit]
    _ = (dh :: dt).reverse ++ (L.takeWhile q).reverse := by rw [List.reverse_append]
    _ = (dt.reverse ++ [dh]) ++ (L.takeWhile q).reverse := by rw [List.reverse_cons]
    _ = dt.reverse ++ dh :: (L.takeWhile q).reverse := by rw [List.append_assoc]; rfl

theorem parentPathOf_data (p : String) (hne : parentPathOf p ≠ "") :
    ∃ t : List Char, p.data = (parentPathOf p).data ++ '/' :: t := by
  rcases hd : (p.data.reverse).dropWhile (fun c => c ≠ '/') with _ | ⟨dh, dt⟩
  · exfalso
    apply hne
    unfold parentPathOf
    rw [hd]
    rfl
  · have hdh : dh = '/' := by
      have h1 := dropWhile_head_false (fun c => c ≠ '/') (p.data.reverse) dh dt hd
      simpa using h1
    subst hdh
    have hparent : (parentPathOf p).data = dt.reverse := by
      unfold parentPathOf
      rw [hd]
      rfl
    have hgen := reverse_eq_of_dropWhile (fun c => c ≠ '/') (p.data.reverse) '/' dt hd
    refine ⟨((p.data.reverse).takeWhile (fun c => c ≠ '/')).reverse, ?_⟩
    rw [hparent]
    exact (List.reverse_reverse p.data).symm.trans hgen

theorem parentPathOf_strLt (p : String) (hne : parentPathOf p ≠ "") :
    strLt (parentPathOf p) p := by
  obtain ⟨t, ht⟩ := parentPathOf_data p hne
  unfold strLt
  rw [ht]
  exact listChar_lt_append _ _ (by simp)

theorem mem_left_of_strLt_sorted {l₁ : List String} {p : String} {l₂ : List String}
    {x : String} (hsort : List.Sorted strLt (l₁ ++ p :: l₂)) (hx : x ∈ l₁ ++ p :: l₂)
    (hlt : strLt x p) : x ∈ l₁ := by
  rcases List.mem_append.mp hx with h | h
  · exact h
  · rcases List.mem_cons.mp h with rfl | h
    · exact absurd hlt (lt_irrefl x.data)
    · have hpair : List.Pairwise strLt (p :: l₂) := (List.pairwise_append.mp hsort).2.1
      have hpx : strLt p x := (List.pairwise_cons.mp hpair).1 x h
      exact absurd hlt (lt_asymm hpx)

theorem treeStep_preserves_isSome (env : FileEnv) (cPath : String) (m : EntryMap)
    (p k : String) (h : (lookupEntry m k).isSome = true) :
    (lookupEntry (treeStep env cPath m p) k).isSome = true := by
  unfold treeStep
  rw [lookupEntry_pushChild_isSome, lookupEntry_setEntry]
  by_cases hk : p = k
  · rw [if_pos hk]
    rfl
  · rw [if_neg hk]
    exact h

theorem treeStep_self_isSome (env : FileEnv) (cPath : String) (m : EntryMap)
    (p : String) : (lookupEntry (treeStep env cPath m p) p).isSome = true := by
  unfold treeStep
  rw [lookupEntry_pushChild_isSome, lookupEntry_setEntry, if_pos rfl]
  rfl

theorem buildFold_presence (env : FileEnv) (cPath : String) :
    ∀ (l : List String) (m : EntryMap) (k : String),
      ((lookupEntry m k).isSome = true ∨ k ∈ l) →
      (lookupEntry (l.foldl (treeStep env cPath) m) k).isSome = true := by
  intro l
  induction l with
  | nil =>
    intro m k h
    rcases h with h | h
    · exact h
    · cases h
  | cons q l ih =>
    intro m k h
    simp only [List.foldl_cons]
    rcases h with h | h
    · exact ih _ _ (Or.inl (treeStep_preserves_isSome env cPath m q k h))
    · rcases List.mem_cons.mp h with rfl | h1
      · exact ih _ _ (Or.inl (treeStep_self_isSome env cPath m k))
      · exact ih _ _ (Or.inr h1)

/-- Remote command results classifying `/root/a` and `/root/c` as
directories and `/root/a/b.txt` as a regular file. -/
def env6 : FileEnv :=
  { statOutput := fun p =>
      if p = "/root/a" || p = "/root/c" then some "directory"
      else if p = "/root/a/b.txt" then some "regular file" else none
    readOutput := fun _ => Except.error "unused" }

/-- The traversal output for the three surviving paths under `/root`. -/
def out6 : String := "/root\n/root/a\n/root/a/b.txt\n/root/c"

/-- C6: on the sorted surviving paths `/root/a`, `/root/a/b.txt`,
`/root/c` (with `a`, `c` directories and `b.txt` a file), `getFileTree`
produces exactly two top-level nodes, `a` before `c`, where `a` has the
single child `b.txt` and `c` has no children; and in general, when the
path list is lexicographically sorted and closed under parents, the
parent entry of every path is already present in the map built from the
paths processed before it — i.e. at the moment the node is attached. -/
theorem getFileTree_spec :
    getFileTree env6 out6 "/root" =
      [FileItem.mk "a" "/root/a" FType.directory
         (some [FileItem.mk "b.txt" "/root/a/b.txt" FType.file none none]) none,
       FileItem.mk "c" "/root/c" FType.directory (some []) none] ∧
    (∀ (env : FileEnv) (cPath : String) (l₁ : List String) (p : String) (l₂ : List String),
       List.Sorted strLt (l₁ ++ p :: l₂) →
       (∀ q ∈ l₁ ++ p :: l₂,
          parentKeyOf cPath q = cPath ∨ parentKeyOf cPath q ∈ l₁ ++ p :: l₂) →
       (lookupEntry (l₁.foldl (treeStep env cPath) [(cPath, rootRawItem)])
          (parentKeyOf cPath p)).isSome = true) := by
  constructor
  · rfl
  · intro env cPath l₁ p l₂ hsort hclosed
    by_cases hpk : parentKeyOf cPath p = cPath
    · rw [hpk]
      refine buildFold_presence env cPath l₁ _ cPath (Or.inl ?_)
      simp [lookupEntry]
    · have hne : parentPathOf p ≠ "" := by
        intro hc
        apply hpk
        unfold parentKeyOf
        rw [if_pos hc]
      have hpkey : parentKeyOf cPath p = parentPathOf p := by
        unfold parentKeyOf
        rw [if_neg hne]
      have hmem0 := hclosed p
        (List.mem_append.mpr (Or.inr (List.mem_cons.mpr (Or.inl rfl))))
      rcases hmem0 with h | h
      · exact absurd h hpk
      · have hlt : strLt (parentKeyOf cPath p) p := by
          rw [hpkey]
          exact parentPathOf_strLt p hne
        have hinl : parentKeyOf cPath p ∈ l₁ := mem_left_of_strLt_sorted hsort h hlt
        exact buildFold_presence env cPath l₁ _ _ (Or.inr hinl)

/-- The parent-present-at-attach invariant instantiated on the concrete
sorted path list of the example: when `/root/a/b.txt` is processed, its
parent `/root/a` is already in the map. -/
theorem getFileTree_spec_witness :
    (lookupEntry ((["/root/a"]).foldl (treeStep env6 "/root")
       [("/root", rootRawItem)]) (parentKeyOf "/root" "/root/a/b.txt")).isSome = true :=
  getFileTree_spec.2 env6 "/root" ["/root/a"] "/root/a/b.txt" ["/root/c"]
    (by decide) (by decide)

end December
